import Mathlib

/-!
Verification of the loopwright repository's project-analysis ("learn") command
and its context-file loader against the natural-language specification.

The TypeScript sources are embedded shallowly:
* `src/commands/learn.ts` — file-type table, ignore set, directory walk
  (`scanDirectory`), project-type and convention detection, `analyzeProject`.
* the context loader module — `loadContextFile` / `loadContextFiles`.

File systems are modelled as explicit tree values; fallible I/O is modelled
by explicit flags (a directory carries a `readable` flag standing for whether
`fs.readdirSync` succeeds on it) and `Except` results.  Wall-clock time is
modelled by explicit parameters, never computed.
-/

/- ### Kernel-reducible string helpers

Core `String.startsWith`/`String.endsWith` are implemented with well-founded
loops that the kernel cannot evaluate, so the embedding uses its own
char-list versions (extensionally the same on our inputs). -/

/-- `s` starts with `pre` (models JS `String.prototype.startsWith`). -/
def strStarts (s pre : String) : Bool := pre.data.isPrefixOf s.data

/-- `s` ends with `suf` (models an anchored regex `suf$` on `s`). -/
def strEnds (s suf : String) : Bool := suf.data.isSuffixOf s.data

/-- ASCII lower-casing (models JS `String.prototype.toLowerCase` on our inputs). -/
def lowerStr (s : String) : String := ⟨s.data.map Char.toLower⟩

/-- `lit` occurs as a contiguous run somewhere in the character list. -/
def containsRun (lit : List Char) : List Char → Bool
  | [] => lit.isEmpty
  | c :: rest => lit.isPrefixOf (c :: rest) || containsRun lit rest

/- ### learn.ts lines 13-29: FILE_PATTERNS

Each regex `/\.(a|b)$/` tests whether the filename ends with `.a` or `.b`,
so a pattern is modelled as its list of literal suffixes.  `Object.entries`
iteration order is the insertion order below. -/

def FILE_PATTERNS : List (String × List String) :=
  [("javascript", [".js", ".mjs", ".cjs"]),
   ("typescript", [".ts", ".tsx"]),
   ("python", [".py"]),
   ("rust", [".rs"]),
   ("go", [".go"]),
   ("java", [".java"]),
   ("csharp", [".cs"]),
   ("ruby", [".rb"]),
   ("php", [".php"]),
   ("markdown", [".md", ".mdx"]),
   ("json", [".json"]),
   ("yaml", [".yaml", ".yml"]),
   ("toml", [".toml"]),
   ("html", [".html", ".htm"]),
   ("css", [".css", ".scss", ".sass", ".less"])]

/- ### learn.ts lines 34-54: IGNORED_DIRS -/

def IGNORED_DIRS : List String :=
  ["node_modules", ".git", ".hg", ".svn", "dist", "build", "out", "target",
   "__pycache__", ".next", ".nuxt", ".cache", "coverage", ".nyc_output",
   "vendor", "venv", ".venv", "env", ".env"]

/-- learn.ts lines 195-197: ignore a directory if its name is in the ignore
set or starts with a dot. -/
def shouldIgnoreDir (dirName : String) : Bool :=
  IGNORED_DIRS.contains dirName || strStarts dirName "."

/-- learn.ts lines 202-209: first pattern (in table order) matching the
filename gives the type; no match gives `none` (source: `null`). -/
def detectFileType (filename : String) : Option String :=
  (FILE_PATTERNS.find? (fun p => p.2.any (fun suf => strEnds filename suf))).map Prod.fst

/- ### learn.ts lines 59-68 and 214-237: project-type detection

`detectProjectTypes` loops over the fixed `PROJECT_INDICATORS` table in
insertion order, appending the type name on the first matching indicator
(the inner `break` makes the indicator test a disjunction).  The loop is
unrolled below, one `if` segment per table entry, in table order.

For the `dotnet` glob indicators `'*.csproj'` / `'*.sln'` the source builds
`new RegExp(indicator.replace('*', '.*'))` — note the unescaped dot, e.g.
`/.*.csproj/` — and uses an unanchored `test`, which holds exactly when the
literal (`csproj` resp. `sln`) occurs at some index ≥ 1 of the filename. -/

/-- Unanchored test of `/.*.lit/` (any char, then `lit`, anywhere). -/
def dotnetGlobTest (lit : String) (f : String) : Bool :=
  match f.data with
  | [] => false
  | _ :: rest => containsRun lit.data rest

def hasNodeIndicator (files : List String) : Bool := files.contains "package.json"

def hasPythonIndicator (files : List String) : Bool :=
  files.contains "setup.py" || files.contains "pyproject.toml" ||
  files.contains "requirements.txt" || files.contains "Pipfile"

def hasRustIndicator (files : List String) : Bool := files.contains "Cargo.toml"

def hasGoIndicator (files : List String) : Bool := files.contains "go.mod"

def hasJavaIndicator (files : List String) : Bool :=
  files.contains "pom.xml" || files.contains "build.gradle" ||
  files.contains "build.gradle.kts"

def hasDotnetIndicator (files : List String) : Bool :=
  files.any (fun f => dotnetGlobTest "csproj" f) || files.any (fun f => dotnetGlobTest "sln" f)

def hasRubyIndicator (files : List String) : Bool := files.contains "Gemfile"

def hasPhpIndicator (files : List String) : Bool := files.contains "composer.json"

/-- The `types` array accumulated by the loop in lines 217-234. -/
def collectedTypes (files : List String) : List String :=
  (if hasNodeIndicator files then ["node"] else []) ++
  (if hasPythonIndicator files then ["python"] else []) ++
  (if hasRustIndicator files then ["rust"] else []) ++
  (if hasGoIndicator files then ["go"] else []) ++
  (if hasJavaIndicator files then ["java"] else []) ++
  (if hasDotnetIndicator files then ["dotnet"] else []) ++
  (if hasRubyIndicator files then ["ruby"] else []) ++
  (if hasPhpIndicator files then ["php"] else [])

/-- learn.ts line 236: `types.length > 0 ? types : ['unknown']`. -/
def detectProjectTypes (files : List String) : List String :=
  let types := collectedTypes files
  if 0 < types.length then types else ["unknown"]

/-- Some indicator of the `PROJECT_INDICATORS` table matches. -/
def matchesAnyIndicator (files : List String) : Bool :=
  hasNodeIndicator files || hasPythonIndicator files || hasRustIndicator files ||
  hasGoIndicator files || hasJavaIndicator files || hasDotnetIndicator files ||
  hasRubyIndicator files || hasPhpIndicator files

/- ### The file-system model used by the directory walk

A directory entry is a plain file or a directory; `readable = false` models
`fs.readdirSync` throwing on that directory (permission denied etc.).
A mutual inductive (instead of a nested `List FSEntry`) keeps every
recursion below structural and hence kernel-computable. -/

mutual
inductive FSEntry where
  | file (name : String)
  | dir (name : String) (readable : Bool) (entries : FSList)
deriving Repr
inductive FSList where
  | nil
  | cons (head : FSEntry) (tail : FSList)
deriving Repr
end

/-- Build an `FSList` from an ordinary list (readdir order). -/
def FSList.ofList : List FSEntry → FSList
  | [] => .nil
  | e :: rest => .cons e (FSList.ofList rest)

/-- `n` copies of the same entry (used for bulk scenario trees). -/
def FSList.replicate : Nat → FSEntry → FSList
  | 0, _ => .nil
  | n + 1, e => .cons e (FSList.replicate n e)

/-- The mutable `result` record threaded through `scanDirectory`
(learn.ts lines 298-303). -/
structure ScanState where
  files : Nat
  directories : Nat
  filesByType : List (String × Nat)
  agentFiles : List String
deriving Repr, DecidableEq

/-- The initial scan accumulator (learn.ts lines 385-390). -/
def initialScanState : ScanState := ⟨0, 0, [], []⟩

/-- `obj[k] = (obj[k] || 0) + 1` on a JS object in insertion order:
increment an existing key in place, else append the new key at the end. -/
def bump : List (String × Nat) → String → List (String × Nat)
  | [], t => [(t, 1)]
  | (k, v) :: rest, t =>
    if k = t then (k, v + 1) :: rest else (k, v) :: bump rest t

/-- Sum of all per-type counters of a `filesByType` record. -/
def sumCounts (l : List (String × Nat)) : Nat := (l.map Prod.snd).sum

/-- `path.join` restricted to the plain relative names the walk produces. -/
def pathJoin (a b : String) : String := if a = "" then b else a ++ "/" ++ b

/-- learn.ts lines 337-350: handling of one plain-file entry — count it,
credit its detected type's bucket, and record it when named `AGENTS.md`. -/
def processFile (st : ScanState) (name : String) (relativePath : String) : ScanState :=
  let st1 : ScanState := { st with files := st.files + 1 }
  let st2 : ScanState :=
    match detectFileType name with
    | some t => { st1 with filesByType := bump st1.filesByType t }
    | none => st1
  if name = "AGENTS.md" then
    { st2 with agentFiles := st2.agentFiles ++ [pathJoin relativePath name] }
  else st2

/-- learn.ts lines 295-354, the body of `scanDirectory` from the entry loop
on: walk the entries of one directory in order, threading the accumulator.
The boolean result is the `truncated` flag.  For a (non-ignored)
subdirectory entry, the match scrutinee is the recursive `scanDirectory`
call inlined, applied to the state with the directory counter already
incremented (line 326): its entry-time cap check (the increment leaves
`files` untouched, so the check reads `st.files`), then the swallowed
`readdirSync` failure (`readable = false` returns un-truncated without
touching the state), then the recursive entry loop.  A truncated inner
call returns immediately (line 333); otherwise the loop continues on the
updated state. -/
def scanEntries (maxFiles : Nat) : FSList → ScanState → String → ScanState × Bool
  | .nil, st, _ => (st, false)
  | .cons e rest, st, relativePath =>
    if maxFiles ≤ st.files then (st, true)
    else
      match e with
      | .file name => scanEntries maxFiles rest (processFile st name relativePath) relativePath
      | .dir name readable sub =>
        if shouldIgnoreDir name then scanEntries maxFiles rest st relativePath
        else
          match
            (if maxFiles ≤ st.files then ({ st with directories := st.directories + 1 }, true)
             else if !readable then ({ st with directories := st.directories + 1 }, false)
             else scanEntries maxFiles sub { st with directories := st.directories + 1 }
               (pathJoin relativePath name)) with
          | (st2, true) => (st2, true)
          | (st2, false) => scanEntries maxFiles rest st2 relativePath
termination_by structural es => es

/-- learn.ts lines 295-354, `scanDirectory` itself: cap check on entry, a
failing `readdirSync` swallowed (returns un-truncated with the state
unchanged), otherwise the entry loop. -/
def scanDirectory (readable : Bool) (entries : FSList) (maxFiles : Nat)
    (st : ScanState) (relativePath : String) : ScanState × Bool :=
  if maxFiles ≤ st.files then (st, true)
  else if !readable then (st, false)
  else scanEntries maxFiles entries st relativePath

/- ### Specification-side measures over the same trees -/

/-- Number of file entries the walk is eligible to visit: files in the tree
outside ignored directories and outside unreadable directories. -/
def countFiles : FSList → Nat
  | .nil => 0
  | .cons e rest =>
    (match e with
     | .file _ => 1
     | .dir name readable sub =>
       if shouldIgnoreDir name || !readable then 0 else countFiles sub) + countFiles rest
termination_by structural es => es

/-- Root-relative paths of every `AGENTS.md` file the walk is eligible to
visit, in walk (depth-first) order. -/
def collectAgents (relativePath : String) : FSList → List String
  | .nil => []
  | .cons e rest =>
    (match e with
     | .file name => if name = "AGENTS.md" then [pathJoin relativePath name] else []
     | .dir name readable sub =>
       if shouldIgnoreDir name || !readable then []
       else collectAgents (pathJoin relativePath name) sub) ++ collectAgents relativePath rest
termination_by structural es => es

/- ### learn.ts lines 359-420: analyzeProject -/

/-- Top-level file names, in entry order (line 375). -/
def topFileNames : FSList → List String
  | .nil => []
  | .cons (.file n) rest => n :: topFileNames rest
  | .cons (.dir _ _ _) rest => topFileNames rest

/-- Top-level non-ignored directory names, in entry order (line 376). -/
def topDirNames : FSList → List String
  | .nil => []
  | .cons (.file _) rest => topDirNames rest
  | .cons (.dir n _ _) rest =>
    if shouldIgnoreDir n then topDirNames rest else n :: topDirNames rest

/-- Name of an entry, used for the `.github/workflows` existence check. -/
def entryNamed (n : String) : FSEntry → Bool
  | .file m => m = n
  | .dir m _ _ => m = n

def FSList.any (p : FSEntry → Bool) : FSList → Bool
  | .nil => false
  | .cons e rest => p e || FSList.any p rest

/-- `fs.existsSync(path.join(rootPath, '.github', 'workflows'))` (line 272):
the root has a `.github` directory containing an entry named `workflows`. -/
def hasGithubWorkflows (entries : FSList) : Bool :=
  FSList.any
    (fun e => match e with
      | .dir ".github" _ sub => FSList.any (entryNamed "workflows") sub
      | _ => false)
    entries

/-- learn.ts lines 242-290: convention detection over the top-level file
names plus the `.github/workflows` existence check. -/
def detectConventions (files : List String) (ghWorkflows : Bool) : List String :=
  let cs : List String := []
  let cs := if files.contains "tsconfig.json" then cs ++ ["TypeScript enabled"] else cs
  let cs :=
    if files.any (fun f => strStarts f "eslint" || f = ".eslintrc" ||
        f = ".eslintrc.js" || f = ".eslintrc.json")
    then cs ++ ["ESLint for linting"] else cs
  let cs :=
    if files.any (fun f => strStarts f ".prettier" || f = "prettier.config.js")
    then cs ++ ["Prettier for formatting"] else cs
  let cs :=
    if files.contains "jest.config.js" || files.contains "jest.config.ts"
    then cs ++ ["Jest for testing"] else cs
  let cs :=
    if files.contains "vitest.config.ts" || files.contains "vitest.config.js"
    then cs ++ ["Vitest for testing"] else cs
  let cs :=
    if files.contains "pytest.ini" || files.contains "conftest.py"
    then cs ++ ["Pytest for testing"] else cs
  let cs := if ghWorkflows then cs ++ ["GitHub Actions for CI/CD"] else cs
  let cs := if files.contains ".gitlab-ci.yml" then cs ++ ["GitLab CI for CI/CD"] else cs
  let cs :=
    if files.contains "Dockerfile" || files.contains "docker-compose.yml" ||
        files.contains "docker-compose.yaml"
    then cs ++ ["Docker containerization"] else cs
  let cs := if files.contains "AGENTS.md" then cs ++ ["AGENTS.md for AI guidance"] else cs
  cs

/-- The state of the file system at the root path handed to
`analyzeProject`: missing, existing but not a directory, or a directory
whose top-level `readdirSync` succeeds (`readable = true`) or throws. -/
inductive RootFS where
  | missing (pathName : String)
  | nonDirectory (pathName : String)
  | directory (pathName : String) (readable : Bool) (entries : FSList)
deriving Repr

/-- learn.ts lines 73-103 `LearnResult`.  The source field `structure` is a
Lean keyword and is rendered here as `structureOverview`. -/
structure LearnResult where
  rootPath : String
  totalFiles : Nat
  totalDirectories : Nat
  projectTypes : List String
  filesByType : List (String × Nat)
  structureOverview : List String
  conventions : List String
  agentFiles : List String
  durationMs : Nat
  truncated : Bool
deriving Repr, DecidableEq

/-- learn.ts lines 394-404: the top-level structure overview. -/
def buildStructure (dirs files : List String) : List String :=
  ((dirs.take 10).map (fun d => d ++ "/")) ++ files.take 10 ++
  (if 20 < dirs.length + files.length
   then ["... and " ++ toString (dirs.length + files.length - 20) ++ " more"]
   else [])

/-- learn.ts lines 359-420 `analyzeProject`.  Thrown exceptions are
modelled as `Except.error` carrying the message: the two explicit structural
throws of lines 364-371, and the uncaught `fs.readdirSync(rootPath)` throw
of line 374 when the root directory itself cannot be read.  `elapsed`
stands for the wall-clock difference of the two `Date.now()` calls and is
only stored in `durationMs`. -/
def analyzeProject (root : RootFS) (elapsed : Nat) : Except String LearnResult :=
  match root with
  | .missing p => .error ("Path does not exist: " ++ p)
  | .nonDirectory p => .error ("Path is not a directory: " ++ p)
  | .directory p readable entries =>
    if !readable then .error ("EACCES: permission denied, scandir " ++ p)
    else
      let topLevelFiles := topFileNames entries
      let topLevelDirs := topDirNames entries
      let projectTypes := detectProjectTypes topLevelFiles
      let conventions := detectConventions topLevelFiles (hasGithubWorkflows entries)
      let scanRes := scanDirectory readable entries 10000 initialScanState ""
      .ok
        { rootPath := p
          totalFiles := scanRes.1.files
          totalDirectories := scanRes.1.directories
          projectTypes := projectTypes
          filesByType := scanRes.1.filesByType
          structureOverview := buildStructure topLevelDirs topLevelFiles
          conventions := conventions
          agentFiles := scanRes.1.agentFiles
          durationMs := elapsed
          truncated := scanRes.2 }

/- ### The context-file loader module (loopwright run command)

`loadContextFile` resolves a path and then queries the file system: does the
file exist, what does `statSync` report, does `readFileSync` succeed.  One
query value bundles the (already resolved) path together with the file
system's answers for it; the flags model the fallible calls. -/

/-- learn-module constant `MAX_CONTEXT_FILE_SIZE` (100KB). -/
def MAX_CONTEXT_FILE_SIZE : Nat := 100 * 1024

/-- `MAX_LOAD_TIME_MS` (1 second). -/
def MAX_LOAD_TIME_MS : Nat := 1000

/-- A context-file path together with the file system's state for it:
`present` is `fs.existsSync`, `statFails` a throwing `statSync`, `size` the
stat size in bytes, `readFails` a throwing `readFileSync`, `content` the
text `readFileSync` would return. -/
structure CtxQuery where
  name : String
  present : Bool
  statFails : Bool
  size : Nat
  readFails : Bool
  content : String
deriving Repr, DecidableEq

/-- `ContextFileResult` of the loader module (optional fields as options). -/
structure ContextFileResult where
  path : String
  success : Bool
  content : Option String
  sizeBytes : Option Nat
  error : Option String
deriving Repr, DecidableEq

/-- `ContextLoadResult` of the loader module. -/
structure ContextLoadResult where
  success : Bool
  files : List ContextFileResult
  combinedContent : String
  totalSizeBytes : Nat
  loadTimeMs : Nat
  errors : List String
deriving Repr, DecidableEq

/-- `path.extname`: the final component's extension from its last dot,
empty when there is no dot or the only dot leads the base name. -/
def afterLastSlash (cs : List Char) : List Char :=
  cs.foldl (fun acc c => if c = '/' then [] else acc ++ [c]) []

/-- Index of the last `'.'` of a character list, counting from `i`. -/
def lastDotIdx : List Char → Nat → Option Nat
  | [], _ => none
  | c :: rest, i =>
    match lastDotIdx rest (i + 1) with
    | some j => some j
    | none => if c = '.' then some i else none

def extname (p : String) : String :=
  let base := afterLastSlash p.data
  match lastDotIdx base 0 with
  | none => ""
  | some 0 => ""
  | some j => ⟨base.drop j⟩

/-- Loader lines 61-70 `validateContextFileFormat`: `none` when the
lower-cased extension is `.md`, `.markdown` or `.txt`, else the error
message. -/
def validateContextFileFormat (filePath : String) : Option String :=
  let ext := lowerStr (extname filePath)
  let validExtensions : List String := [".md", ".markdown", ".txt"]
  if validExtensions.contains ext then none
  else some ("Invalid context file format: " ++ ext ++ ". Expected .md, .markdown, .txt")

/-- Loader lines 78-140 `loadContextFile`: existence check, format check,
`statSync`, size check, `readFileSync`; every failure is returned as a
result value, never thrown (the model is a total function).  Error texts
whose source interpolates a system exception or a formatted float carry the
fixed message part only. -/
def loadContextFile (q : CtxQuery) : ContextFileResult :=
  if !q.present then
    { path := q.name, success := false, content := none, sizeBytes := none,
      error := some ("Context file not found: " ++ q.name) }
  else
    match validateContextFileFormat q.name with
    | some formatError =>
      { path := q.name, success := false, content := none, sizeBytes := none,
        error := some formatError }
    | none =>
      if q.statFails then
        { path := q.name, success := false, content := none, sizeBytes := none,
          error := some "Cannot access context file" }
      else if MAX_CONTEXT_FILE_SIZE < q.size then
        { path := q.name, success := false, content := none, sizeBytes := none,
          error := some "Context file too large" }
      else if q.readFails then
        { path := q.name, success := false, content := none, sizeBytes := none,
          error := some "Failed to read context file" }
      else
        { path := q.name, success := true, content := some q.content,
          sizeBytes := some q.size, error := none }

/-- The loop of `loadContextFiles` (lines 155-172), accumulating per-file
results, error messages, successful contents and the total size.  `clock i`
is the elapsed-time reading `Date.now() - startTime` observed at the start
of iteration `i`; exceeding the limit pushes the timeout error and breaks.
A successful file joins `combinedContent` only when its content is a
non-empty string (JS truthiness of `result.content`). -/
def loadLoop (clock : Nat → Nat) :
    List CtxQuery → Nat → List ContextFileResult → List String → List String → Nat →
    List ContextFileResult × List String × List String × Nat
  | [], _, results, errors, contents, totalSize => (results, errors, contents, totalSize)
  | q :: rest, i, results, errors, contents, totalSize =>
    if MAX_LOAD_TIME_MS < clock i then
      (results,
       errors ++ ["Context loading timeout: exceeded " ++ toString MAX_LOAD_TIME_MS ++ "ms limit"],
       contents, totalSize)
    else
      let r := loadContextFile q
      let results := results ++ [r]
      if r.success && (r.content.getD "") ≠ "" then
        loadLoop clock rest (i + 1) results errors (contents ++ [r.content.getD ""])
          (totalSize + r.sizeBytes.getD 0)
      else
        match r.error with
        | some e => loadLoop clock rest (i + 1) results (errors ++ [e]) contents totalSize
        | none => loadLoop clock rest (i + 1) results errors contents totalSize

/-- Loader lines 148-186 `loadContextFiles`.  `success` is line 176:
`results.length > 0 && results.every(r => r.success)`.  The final
`loadTimeMs` reading is modelled as the clock after the last iteration. -/
def loadContextFiles (queries : List CtxQuery) (clock : Nat → Nat) : ContextLoadResult :=
  let acc := loadLoop clock queries 0 [] [] [] 0
  { success := 0 < acc.1.length && acc.1.all (fun r => r.success)
    files := acc.1
    combinedContent := String.intercalate "\n\n---\n\n" acc.2.2.1
    totalSizeBytes := acc.2.2.2
    loadTimeMs := clock queries.length
    errors := acc.2.1 }

/- ### Helper lemmas about one file step -/

theorem scanEntries_dir_step (maxFiles : Nat) (name : String) (r : Bool) (sub rest : FSList)
    (st : ScanState) (rel : String) (hle : ¬ maxFiles ≤ st.files)
    (hig : ¬ shouldIgnoreDir name = true) :
    scanEntries maxFiles (.cons (.dir name r sub) rest) st rel =
      match scanDirectory r sub maxFiles { st with directories := st.directories + 1 }
          (pathJoin rel name) with
      | (st2, true) => (st2, true)
      | (st2, false) => scanEntries maxFiles rest st2 rel := by
  rw [scanEntries.eq_def]
  simp only [if_neg hle, hig, Bool.false_eq_true, if_false, scanDirectory]

theorem countFiles_nil : countFiles .nil = 0 := rfl

theorem countFiles_cons_file (n : String) (rest : FSList) :
    countFiles (.cons (.file n) rest) = 1 + countFiles rest := rfl

theorem countFiles_cons_dir (n : String) (r : Bool) (sub rest : FSList) :
    countFiles (.cons (.dir n r sub) rest) =
      (if shouldIgnoreDir n || !r then 0 else countFiles sub) + countFiles rest := rfl

theorem processFile_files (st : ScanState) (n rel : String) :
    (processFile st n rel).files = st.files + 1 := by
  simp only [processFile]
  split <;> split <;> simp

theorem processFile_directories (st : ScanState) (n rel : String) :
    (processFile st n rel).directories = st.directories := by
  simp only [processFile]
  split <;> split <;> simp

theorem processFile_filesByType_some (st : ScanState) (n rel t : String)
    (h : detectFileType n = some t) :
    (processFile st n rel).filesByType = bump st.filesByType t := by
  simp only [processFile, h]
  split <;> simp

theorem processFile_filesByType_none (st : ScanState) (n rel : String)
    (h : detectFileType n = none) :
    (processFile st n rel).filesByType = st.filesByType := by
  simp only [processFile, h]
  split <;> simp

theorem processFile_agentFiles (st : ScanState) (n rel : String) :
    (processFile st n rel).agentFiles =
      st.agentFiles ++ (if n = "AGENTS.md" then [pathJoin rel n] else []) := by
  simp only [processFile]
  split <;> split <;> simp_all

theorem sumCounts_bump (l : List (String × Nat)) (t : String) :
    sumCounts (bump l t) = sumCounts l + 1 := by
  induction l with
  | nil => simp [bump, sumCounts]
  | cons p rest ih =>
    obtain ⟨k, v⟩ := p
    by_cases h : k = t <;> simp [bump, h, sumCounts] at ih ⊢ <;> omega

theorem processFile_sumCounts (st : ScanState) (n rel : String) :
    sumCounts (processFile st n rel).filesByType ≤ sumCounts st.filesByType + 1 := by
  cases h : detectFileType n with
  | none => rw [processFile_filesByType_none st n rel h]; omega
  | some t => rw [processFile_filesByType_some st n rel t h, sumCounts_bump]

/- ### Global invariants of the walk, by functional induction -/

/-- The walk never counts more than `maxFiles` file entries. -/
theorem scanEntries_files_le (maxFiles : Nat) (es : FSList) (st : ScanState) (rel : String) :
    st.files ≤ maxFiles → (scanEntries maxFiles es st rel).1.files ≤ maxFiles := by
  induction es, st, rel using scanEntries.induct maxFiles with
  | case1 st rel => intro h; rw [scanEntries]; exact h
  | case2 e rest st rel hle => intro h; rw [scanEntries.eq_def]; simp only [if_pos hle]; exact h
  | case3 rest st rel hle a ih =>
    intro h
    rw [scanEntries.eq_def]
    simp only [if_neg hle]
    exact ih (by rw [processFile_files]; omega)
  | case4 rest st rel hle a r sub hig ih =>
    intro h
    rw [scanEntries.eq_def]
    simp only [if_neg hle, hig, if_true]
    exact ih h
  | case5 rest st rel hle a r sub hig st2 heq ihsub =>
    intro h
    rw [scanEntries.eq_def]
    rw [if_neg hle] at heq
    simp only [if_neg hle, hig, Bool.false_eq_true, if_false, heq]
    by_cases hr : (!r) = true
    · rw [if_pos hr] at heq
      exact absurd (congrArg Prod.snd heq) (by simp)
    · rw [if_neg hr] at heq
      have := ihsub h
      rw [heq] at this
      exact this
  | case6 rest st rel hle a r sub hig st2 heq ihsub ihrest =>
    intro h
    rw [scanEntries.eq_def]
    rw [if_neg hle] at heq
    simp only [if_neg hle, hig, Bool.false_eq_true, if_false, heq]
    apply ihrest
    by_cases hr : (!r) = true
    · rw [if_pos hr] at heq
      cases heq
      exact h
    · rw [if_neg hr] at heq
      have := ihsub h
      rw [heq] at this
      exact this

/-- An un-truncated walk counts exactly the eligible files. -/
theorem scanEntries_count_of_not_truncated (maxFiles : Nat) (es : FSList) (st : ScanState)
    (rel : String) :
    (scanEntries maxFiles es st rel).2 = false →
      (scanEntries maxFiles es st rel).1.files = st.files + countFiles es := by
  induction es, st, rel using scanEntries.induct maxFiles with
  | case1 st rel => intro _; rw [scanEntries]; simp [countFiles]
  | case2 e rest st rel hle =>
    rw [scanEntries.eq_def]
    simp only [if_pos hle]
    intro h
    exact absurd h (by simp)
  | case3 rest st rel hle a ih =>
    rw [scanEntries.eq_def]
    simp only [if_neg hle]
    intro h
    rw [ih h, processFile_files, countFiles_cons_file]
    omega
  | case4 rest st rel hle a r sub hig ih =>
    rw [scanEntries.eq_def]
    simp only [if_neg hle, hig, if_true]
    intro h
    rw [ih h, countFiles_cons_dir, hig]
    simp
  | case5 rest st rel hle a r sub hig st2 heq ihsub =>
    rw [scanEntries.eq_def]
    rw [if_neg hle] at heq
    simp only [if_neg hle, hig, Bool.false_eq_true, if_false, heq]
    intro h
    exact absurd h (by simp)
  | case6 rest st rel hle a r sub hig st2 heq ihsub ihrest =>
    rw [scanEntries.eq_def]
    rw [if_neg hle] at heq
    simp only [if_neg hle, hig, Bool.false_eq_true, if_false, heq]
    intro h
    rw [ihrest h, countFiles_cons_dir]
    have hig' : shouldIgnoreDir a = false := by
      cases hg : shouldIgnoreDir a
      · rfl
      · exact absurd hg hig
    rw [hig']
    simp only [Bool.false_or]
    by_cases hr : (!r) = true
    · rw [if_pos hr] at heq
      cases heq
      simp only [hr, if_true]
      simp
    · rw [if_neg hr] at heq
      have hflag : (scanEntries maxFiles sub
          { st with directories := st.directories + 1 } (pathJoin rel a)).2 = false :=
        congrArg Prod.snd heq
      have hsub := ihsub hflag
      rw [heq] at hsub
      simp only [hr, Bool.false_eq_true, if_false] at hsub ⊢
      simp only [hsub]
      omega

/-- When the walk reports truncation it stopped exactly at the cap. -/
theorem scanEntries_files_of_truncated (maxFiles : Nat) (es : FSList) (st : ScanState)
    (rel : String) :
    st.files ≤ maxFiles → (scanEntries maxFiles es st rel).2 = true →
      (scanEntries maxFiles es st rel).1.files = maxFiles := by
  induction es, st, rel using scanEntries.induct maxFiles with
  | case1 st rel =>
    intro _ htr
    rw [scanEntries] at htr
    exact absurd htr (by simp)
  | case2 e rest st rel hle =>
    intro h _
    rw [scanEntries.eq_def]
    simp only [if_pos hle]
    omega
  | case3 rest st rel hle a ih =>
    intro h
    rw [scanEntries.eq_def]
    simp only [if_neg hle]
    exact ih (by rw [processFile_files]; omega)
  | case4 rest st rel hle a r sub hig ih =>
    intro h
    rw [scanEntries.eq_def]
    simp only [if_neg hle, hig, if_true]
    exact ih h
  | case5 rest st rel hle a r sub hig st2 heq ihsub =>
    intro h _
    rw [scanEntries.eq_def]
    rw [if_neg hle] at heq
    simp only [if_neg hle, hig, Bool.false_eq_true, if_false, heq]
    by_cases hr : (!r) = true
    · rw [if_pos hr] at heq
      exact absurd (congrArg Prod.snd heq) (by simp)
    · rw [if_neg hr] at heq
      have hflag : (scanEntries maxFiles sub
          { st with directories := st.directories + 1 } (pathJoin rel a)).2 = true :=
        congrArg Prod.snd heq
      have := ihsub h hflag
      rw [heq] at this
      exact this
  | case6 rest st rel hle a r sub hig st2 heq ihsub ihrest =>
    intro h
    rw [scanEntries.eq_def]
    rw [if_neg hle] at heq
    simp only [if_neg hle, hig, Bool.false_eq_true, if_false, heq]
    apply ihrest
    by_cases hr : (!r) = true
    · rw [if_pos hr] at heq
      cases heq
      exact h
    · rw [if_neg hr] at heq
      have := scanEntries_files_le maxFiles sub
        { st with directories := st.directories + 1 } (pathJoin rel a) h
      rw [heq] at this
      exact this

/-- The walk preserves `sum of the per-type buckets ≤ files counted`. -/
theorem scanEntries_sumCounts_le (maxFiles : Nat) (es : FSList) (st : ScanState)
    (rel : String) :
    sumCounts st.filesByType ≤ st.files →
      sumCounts (scanEntries maxFiles es st rel).1.filesByType ≤
        (scanEntries maxFiles es st rel).1.files := by
  induction es, st, rel using scanEntries.induct maxFiles with
  | case1 st rel => intro h; rw [scanEntries]; exact h
  | case2 e rest st rel hle => intro h; rw [scanEntries.eq_def]; simp only [if_pos hle]; exact h
  | case3 rest st rel hle a ih =>
    intro h
    rw [scanEntries.eq_def]
    simp only [if_neg hle]
    refine ih ?_
    have h1 := processFile_sumCounts st a rel
    rw [processFile_files]
    omega
  | case4 rest st rel hle a r sub hig ih =>
    intro h
    rw [scanEntries.eq_def]
    simp only [if_neg hle, hig, if_true]
    exact ih h
  | case5 rest st rel hle a r sub hig st2 heq ihsub =>
    intro h
    rw [scanEntries.eq_def]
    rw [if_neg hle] at heq
    simp only [if_neg hle, hig, Bool.false_eq_true, if_false, heq]
    by_cases hr : (!r) = true
    · rw [if_pos hr] at heq
      cases heq
    · rw [if_neg hr] at heq
      have := ihsub h
      rw [heq] at this
      exact this
  | case6 rest st rel hle a r sub hig st2 heq ihsub ihrest =>
    intro h
    rw [scanEntries.eq_def]
    rw [if_neg hle] at heq
    simp only [if_neg hle, hig, Bool.false_eq_true, if_false, heq]
    apply ihrest
    by_cases hr : (!r) = true
    · rw [if_pos hr] at heq
      cases heq
      exact h
    · rw [if_neg hr] at heq
      have := ihsub h
      rw [heq] at this
      exact this

theorem collectAgents_nil (rel : String) : collectAgents rel .nil = [] := rfl

theorem collectAgents_cons_file (rel n : String) (rest : FSList) :
    collectAgents rel (.cons (.file n) rest) =
      (if n = "AGENTS.md" then [pathJoin rel n] else []) ++ collectAgents rel rest := rfl

theorem collectAgents_cons_dir (rel n : String) (r : Bool) (sub rest : FSList) :
    collectAgents rel (.cons (.dir n r sub) rest) =
      (if shouldIgnoreDir n || !r then [] else collectAgents (pathJoin rel n) sub) ++
        collectAgents rel rest := rfl

/-- An un-truncated walk records exactly the eligible `AGENTS.md` files,
appended in depth-first order to whatever was recorded before. -/
theorem scanEntries_agents_of_not_truncated (maxFiles : Nat) (es : FSList) (st : ScanState)
    (rel : String) :
    (scanEntries maxFiles es st rel).2 = false →
      (scanEntries maxFiles es st rel).1.agentFiles =
        st.agentFiles ++ collectAgents rel es := by
  induction es, st, rel using scanEntries.induct maxFiles with
  | case1 st rel => intro _; rw [scanEntries]; simp [collectAgents_nil]
  | case2 e rest st rel hle =>
    rw [scanEntries.eq_def]
    simp only [if_pos hle]
    intro h
    exact absurd h (by simp)
  | case3 rest st rel hle a ih =>
    rw [scanEntries.eq_def]
    simp only [if_neg hle]
    intro h
    rw [ih h, processFile_agentFiles, collectAgents_cons_file, List.append_assoc]
  | case4 rest st rel hle a r sub hig ih =>
    rw [scanEntries.eq_def]
    simp only [if_neg hle, hig, if_true]
    intro h
    rw [ih h, collectAgents_cons_dir, hig]
    simp
  | case5 rest st rel hle a r sub hig st2 heq ihsub =>
    rw [scanEntries.eq_def]
    rw [if_neg hle] at heq
    simp only [if_neg hle, hig, Bool.false_eq_true, if_false, heq]
    intro h
    exact absurd h (by simp)
  | case6 rest st rel hle a r sub hig st2 heq ihsub ihrest =>
    rw [scanEntries.eq_def]
    rw [if_neg hle] at heq
    simp only [if_neg hle, hig, Bool.false_eq_true, if_false, heq]
    intro h
    rw [ihrest h, collectAgents_cons_dir]
    have hig' : shouldIgnoreDir a = false := by
      cases hg : shouldIgnoreDir a
      · rfl
      · exact absurd hg hig
    rw [hig']
    simp only [Bool.false_or]
    by_cases hr : (!r) = true
    · rw [if_pos hr] at heq
      cases heq
      simp only [hr, if_true]
      simp
    · rw [if_neg hr] at heq
      have hflag : (scanEntries maxFiles sub
          { st with directories := st.directories + 1 } (pathJoin rel a)).2 = false :=
        congrArg Prod.snd heq
      have hsub := ihsub hflag
      rw [heq] at hsub
      simp only [hr, Bool.false_eq_true, if_false]
      rw [hsub]
      simp [List.append_assoc]

/-- The walk only ever appends to the recorded `AGENTS.md` list. -/
theorem scanEntries_agents_extend (maxFiles : Nat) (es : FSList) (st : ScanState)
    (rel : String) :
    ∃ l, (scanEntries maxFiles es st rel).1.agentFiles = st.agentFiles ++ l := by
  induction es, st, rel using scanEntries.induct maxFiles with
  | case1 st rel => exact ⟨[], by rw [scanEntries]; simp⟩
  | case2 e rest st rel hle =>
    refine ⟨[], ?_⟩
    rw [scanEntries.eq_def]
    simp only [if_pos hle]
    simp
  | case3 rest st rel hle a ih =>
    obtain ⟨l, hl⟩ := ih
    rw [processFile_agentFiles] at hl
    refine ⟨(if a = "AGENTS.md" then [pathJoin rel a] else []) ++ l, ?_⟩
    rw [scanEntries.eq_def]
    simp only [if_neg hle]
    rw [hl, List.append_assoc]
  | case4 rest st rel hle a r sub hig ih =>
    obtain ⟨l, hl⟩ := ih
    refine ⟨l, ?_⟩
    rw [scanEntries.eq_def]
    simp only [if_neg hle, hig, if_true]
    exact hl
  | case5 rest st rel hle a r sub hig st2 heq ihsub =>
    rw [scanEntries.eq_def]
    rw [if_neg hle] at heq
    simp only [if_neg hle, hig, Bool.false_eq_true, if_false, heq]
    by_cases hr : (!r) = true
    · rw [if_pos hr] at heq
      cases heq
    · rw [if_neg hr] at heq
      obtain ⟨l, hl⟩ := ihsub
      rw [heq] at hl
      exact ⟨l, hl⟩
  | case6 rest st rel hle a r sub hig st2 heq ihsub ihrest =>
    rw [scanEntries.eq_def]
    rw [if_neg hle] at heq
    simp only [if_neg hle, hig, Bool.false_eq_true, if_false, heq]
    by_cases hr : (!r) = true
    · rw [if_pos hr] at heq
      cases heq
      obtain ⟨l, hl⟩ := ihrest
      exact ⟨l, hl⟩
    · rw [if_neg hr] at heq
      obtain ⟨l1, hl1⟩ := ihsub
      obtain ⟨l2, hl2⟩ := ihrest
      rw [heq] at hl1
      refine ⟨l1 ++ l2, ?_⟩
      rw [hl2, hl1, List.append_assoc]

/- ### analyzeProject unfolding on the main path -/

/-- `analyzeProject` on an existing, listable directory root: the result
record, field by field. -/
theorem analyzeProject_directory_ok (p : String) (es : FSList) (el : Nat) :
    analyzeProject (.directory p true es) el = .ok
      { rootPath := p
        totalFiles := (scanDirectory true es 10000 initialScanState "").1.files
        totalDirectories := (scanDirectory true es 10000 initialScanState "").1.directories
        projectTypes := detectProjectTypes (topFileNames es)
        filesByType := (scanDirectory true es 10000 initialScanState "").1.filesByType
        structureOverview := buildStructure (topDirNames es) (topFileNames es)
        conventions := detectConventions (topFileNames es) (hasGithubWorkflows es)
        agentFiles := (scanDirectory true es 10000 initialScanState "").1.agentFiles
        durationMs := el
        truncated := (scanDirectory true es 10000 initialScanState "").2 } := rfl

/-- On a listable root the top-level `scanDirectory` call is the entry loop
started on the empty accumulator. -/
theorem scanDirectory_root (es : FSList) :
    scanDirectory true es 10000 initialScanState "" =
      scanEntries 10000 es initialScanState "" := rfl

/- ### The claims -/

/-- C1: For every directory tree, the tree walk (`scanDirectory`, invoked by
`analyzeProject` with cap 10,000) counts at most the cap many file entries;
on a tree with more eligible files than the cap the walk halts once the cap
is reached and the result carries `truncated = true`, and hitting the cap
never causes `analyzeProject` to throw — the analysis still completes and
returns a result. -/
theorem C1_cap_and_truncation (p : String) (es : FSList) (el : Nat) :
    (∀ maxFiles (st : ScanState) rel, st.files ≤ maxFiles →
        (scanEntries maxFiles es st rel).1.files ≤ maxFiles ∧
        (maxFiles < st.files + countFiles es →
          (scanEntries maxFiles es st rel).2 = true ∧
          (scanEntries maxFiles es st rel).1.files = maxFiles)) ∧
    (∃ res, analyzeProject (.directory p true es) el = .ok res ∧
      res.totalFiles ≤ 10000 ∧
      (10000 < countFiles es → res.truncated = true ∧ res.totalFiles = 10000)) := by
  have hmain : ∀ maxFiles (st : ScanState) rel, st.files ≤ maxFiles →
      (scanEntries maxFiles es st rel).1.files ≤ maxFiles ∧
      (maxFiles < st.files + countFiles es →
        (scanEntries maxFiles es st rel).2 = true ∧
        (scanEntries maxFiles es st rel).1.files = maxFiles) := by
    intro maxFiles st rel h
    refine ⟨scanEntries_files_le maxFiles es st rel h, ?_⟩
    intro hover
    have htr : (scanEntries maxFiles es st rel).2 = true := by
      cases hflag : (scanEntries maxFiles es st rel).2 with
      | true => rfl
      | false =>
        have := scanEntries_count_of_not_truncated maxFiles es st rel hflag
        have hle := scanEntries_files_le maxFiles es st rel h
        omega
    exact ⟨htr, scanEntries_files_of_truncated maxFiles es st rel h htr⟩
  refine ⟨hmain, ?_⟩
  refine ⟨_, analyzeProject_directory_ok p es el, ?_, ?_⟩
  · rw [scanDirectory_root]
    exact (hmain 10000 initialScanState "" (by decide)).1
  · intro hover
    rw [scanDirectory_root]
    exact (hmain 10000 initialScanState "" (by decide)).2
      (by simpa [initialScanState] using hover)

/-- C1 witness: a two-file tree against cap 1 — at most one file is
counted and the walk reports truncation at exactly the cap. -/
theorem C1_witness :
    (scanEntries 1 (.cons (.file "a.txt") (.cons (.file "b.txt") .nil))
        initialScanState "").1.files ≤ 1 ∧
    (scanEntries 1 (.cons (.file "a.txt") (.cons (.file "b.txt") .nil))
        initialScanState "").2 = true ∧
    (scanEntries 1 (.cons (.file "a.txt") (.cons (.file "b.txt") .nil))
        initialScanState "").1.files = 1 := by
  have h := (C1_cap_and_truncation "r" (.cons (.file "a.txt") (.cons (.file "b.txt") .nil)) 0).1
    1 initialScanState "" (by decide)
  exact ⟨h.1, h.2 (by decide)⟩

/-- The C2 scenario tree: an ignore-listed `node_modules` holding 5,000
files next to a project area of 3 folders and 10 files. -/
def scenarioC2 : FSList :=
  .cons (.dir "node_modules" true (FSList.replicate 5000 (.file "dep.js")))
  (.cons (.dir "src" true (FSList.ofList [.file "a.ts", .file "b.ts", .file "c.ts", .file "d.ts"]))
  (.cons (.dir "lib" true (FSList.ofList [.file "e.js", .file "f.js", .file "g.js"]))
  (.cons (.dir "docs" true (FSList.ofList [.file "h.md", .file "i.md"]))
  (.cons (.file "j.json") .nil))))

/-- C2: A directory whose name is in the fixed ignore set or begins with
`.` is never descended into and contributes nothing to the counts: the walk
of a list headed by such a directory equals the walk of the remaining
entries on the unchanged state.  On the scenario tree (ignored
`node_modules` with 5,000 files, project area of 3 folders / 10 files, cap
10,000) the analysis reports 10 files, 3 directories, not truncated. -/
theorem C2_ignored_dirs (maxFiles : Nat) (name : String) (r : Bool) (sub rest : FSList)
    (st : ScanState) (rel : String) :
    (shouldIgnoreDir name = true → st.files < maxFiles →
      scanEntries maxFiles (.cons (.dir name r sub) rest) st rel =
        scanEntries maxFiles rest st rel) ∧
    (strStarts name "." = true → shouldIgnoreDir name = true) ∧
    shouldIgnoreDir "node_modules" = true ∧ shouldIgnoreDir ".git" = true ∧
    shouldIgnoreDir "dist" = true ∧ shouldIgnoreDir "build" = true ∧
    ((analyzeProject (.directory "proj" true scenarioC2) 0).toOption.map
        (fun res => (res.totalFiles, res.totalDirectories, res.truncated)) =
      some (10, 3, false)) := by
  refine ⟨?_, ?_, by decide, by decide, by decide, by decide, by decide⟩
  · intro hig hlt
    rw [scanEntries.eq_def]
    simp only [if_neg (by omega : ¬ maxFiles ≤ st.files), hig, if_true]
  · intro hdot
    unfold shouldIgnoreDir
    rw [hdot]
    simp

/-- C2 witness: skipping a concrete ignored directory leaves the walk of
the remaining entries unchanged. -/
theorem C2_witness :
    scanEntries 10
        (.cons (.dir "node_modules" true (.cons (.file "x.js") .nil))
          (.cons (.file "a.ts") .nil))
        initialScanState "" =
      scanEntries 10 (.cons (.file "a.ts") .nil) initialScanState "" :=
  (C2_ignored_dirs 10 "node_modules" true (.cons (.file "x.js") .nil)
    (.cons (.file "a.ts") .nil) initialScanState "").1 (by decide) (by decide)

/-- The C3 scenario: one unreadable directory holding three files. -/
def scenarioC3 : FSList :=
  .cons (.dir "secret" false (FSList.ofList [.file "a.txt", .file "b.txt", .file "c.txt"]))
    .nil

/-- C3 counterexample: the claim says a directory whose entries cannot be
read is "skipped, not counted"; but the walk increments the directory
counter before attempting the read, so an unreadable directory still
contributes 1 to `totalDirectories` (its three files contribute nothing). -/
theorem C3_counterexample :
    (analyzeProject (.directory "r" true scenarioC3) 0).toOption.map
        (fun res => (res.totalFiles, res.totalDirectories)) = some (0, 1) := by decide

/-- C3 (amended): when reading a non-ignored directory's entries fails, the
failure is swallowed locally — the directory's contents contribute nothing,
no truncation is reported for it, the walk continues over the remaining
tree on the state as of the failed read (which already includes the +1 for
the unreadable directory itself), and the overall analysis still returns a
result rather than aborting. -/
theorem C3_unreadable_swallowed (maxFiles : Nat) (name : String) (sub rest es : FSList)
    (st : ScanState) (rel p : String) (el : Nat) :
    (scanDirectory false sub maxFiles st rel =
      if maxFiles ≤ st.files then (st, true) else (st, false)) ∧
    (shouldIgnoreDir name = false → st.files < maxFiles →
      scanEntries maxFiles (.cons (.dir name false sub) rest) st rel =
        scanEntries maxFiles rest { st with directories := st.directories + 1 } rel) ∧
    (analyzeProject (.directory p true es) el).isOk = true := by
  refine ⟨?_, ?_, ?_⟩
  · unfold scanDirectory
    split <;> rfl
  · intro hig hlt
    rw [scanEntries_dir_step maxFiles name false sub rest st rel (by omega)
      (by rw [hig]; simp)]
    have hd : scanDirectory false sub maxFiles
        { st with directories := st.directories + 1 } (pathJoin rel name) =
        ({ st with directories := st.directories + 1 }, false) := by
      unfold scanDirectory
      rw [if_neg (by simp; omega)]
      rfl
    rw [hd]
  · rw [analyzeProject_directory_ok]
    rfl

/-- C3 witness: a concrete unreadable directory — state unchanged apart
from the directory counter, walk continues, no truncation. -/
theorem C3_witness :
    scanEntries 10 (.cons (.dir "secret" false (.cons (.file "a.txt") .nil)) .nil)
        initialScanState "" =
      scanEntries 10 .nil
        { initialScanState with directories := initialScanState.directories + 1 } "" :=
  (C3_unreadable_swallowed 10 "secret" (.cons (.file "a.txt") .nil) .nil .nil
    initialScanState "" "p" 0).2.1 (by decide) (by decide)

/-- C4 counterexample: a root that exists and is a directory, but whose
top-level `readdirSync` fails, makes `analyzeProject` throw (the line-374
read is not guarded), so "every valid root directory produces a result"
fails if validity only means "exists and is a directory". -/
theorem C4_counterexample :
    (analyzeProject (.directory "locked" false .nil) 0).isOk = false := by decide

/-- C4 (amended): if the root path does not exist or is not a directory,
`analyzeProject` fails with an error naming the path, before any scanning;
for every valid root directory whose top-level listing succeeds it
terminates normally with a result value; a root whose directory listing
itself fails (e.g. permission denied) also propagates as a hard failure. -/
theorem C4_structural_errors (p q : String) (es : FSList) (el : Nat) :
    analyzeProject (.missing p) el = .error ("Path does not exist: " ++ p) ∧
    analyzeProject (.nonDirectory p) el = .error ("Path is not a directory: " ++ p) ∧
    (∃ res, analyzeProject (.directory p true es) el = .ok res) ∧
    (analyzeProject (.directory q false es) el).isOk = false := by
  refine ⟨rfl, rfl, ⟨_, analyzeProject_directory_ok p es el⟩, rfl⟩

/-- C5: every file entry is classified by the fixed pattern table
(`.ts`/`.tsx` → typescript, `.py` → python, `.js`/`.mjs`/`.cjs` →
javascript, …); a matching file increments exactly its type's bucket, an
unmatched file increments only the total, hence the total file count
dominates the sum of all per-type buckets in every analysis result. -/
theorem C5_file_classification :
    detectFileType "a.ts" = some "typescript" ∧
    detectFileType "a.tsx" = some "typescript" ∧
    detectFileType "a.py" = some "python" ∧
    detectFileType "a.js" = some "javascript" ∧
    detectFileType "a.mjs" = some "javascript" ∧
    detectFileType "a.cjs" = some "javascript" ∧
    detectFileType "a.unknownext" = none ∧
    (∀ (st : ScanState) (n rel t : String), detectFileType n = some t →
        (processFile st n rel).files = st.files + 1 ∧
        (processFile st n rel).filesByType = bump st.filesByType t) ∧
    (∀ (st : ScanState) (n rel : String), detectFileType n = none →
        (processFile st n rel).files = st.files + 1 ∧
        (processFile st n rel).filesByType = st.filesByType) ∧
    (∀ (root : RootFS) (el : Nat) (res : LearnResult), analyzeProject root el = .ok res →
        sumCounts res.filesByType ≤ res.totalFiles) := by
  refine ⟨by decide, by decide, by decide, by decide, by decide, by decide, by decide,
    ?_, ?_, ?_⟩
  · intro st n rel t h
    exact ⟨processFile_files st n rel, processFile_filesByType_some st n rel t h⟩
  · intro st n rel h
    exact ⟨processFile_files st n rel, processFile_filesByType_none st n rel h⟩
  · intro root el res h
    match root with
    | .missing p => exact Except.noConfusion h
    | .nonDirectory p => exact Except.noConfusion h
    | .directory p rb es =>
      cases rb with
      | false => exact Except.noConfusion h
      | true =>
        rw [analyzeProject_directory_ok] at h
        injection h with h'
        subst h'
        show sumCounts (scanDirectory true es 10000 initialScanState "").1.filesByType ≤
          (scanDirectory true es 10000 initialScanState "").1.files
        rw [scanDirectory_root]
        exact scanEntries_sumCounts_le 10000 es initialScanState "" (by decide)

/-- C5 witness: the inequality evaluated on a one-file project. -/
theorem C5_witness :
    sumCounts (LearnResult.mk "w" 1 0 ["unknown"] [("typescript", 1)] ["x.ts"] [] [] 0
      false).filesByType ≤
    (LearnResult.mk "w" 1 0 ["unknown"] [("typescript", 1)] ["x.ts"] [] [] 0
      false).totalFiles :=
  (C5_file_classification).2.2.2.2.2.2.2.2.2
    (.directory "w" true (.cons (.file "x.ts") .nil)) 0 _ rfl

/-- C6: every `AGENTS.md` the walk encounters before the file cap is hit is
recorded in `agentFiles` under its path relative to the root, regardless of
depth: the per-file step appends the joined relative path, the recorded
list only ever grows, and an un-truncated walk records exactly the eligible
`AGENTS.md` paths of the whole tree. -/
theorem C6_agents_recorded (maxFiles : Nat) (es : FSList) (st : ScanState)
    (rel p : String) (el : Nat) :
    (∀ (st2 : ScanState) (rel2 : String),
        (processFile st2 "AGENTS.md" rel2).agentFiles =
          st2.agentFiles ++ [pathJoin rel2 "AGENTS.md"]) ∧
    ((scanEntries maxFiles es st rel).2 = false →
      (scanEntries maxFiles es st rel).1.agentFiles =
        st.agentFiles ++ collectAgents rel es) ∧
    (∃ l, (scanEntries maxFiles es st rel).1.agentFiles = st.agentFiles ++ l) ∧
    (∀ res, analyzeProject (.directory p true es) el = .ok res →
      res.truncated = false → res.agentFiles = collectAgents "" es) := by
  refine ⟨?_, scanEntries_agents_of_not_truncated maxFiles es st rel,
    scanEntries_agents_extend maxFiles es st rel, ?_⟩
  · intro st2 rel2
    rw [processFile_agentFiles]
    simp
  · intro res h htr
    rw [analyzeProject_directory_ok] at h
    injection h with h'
    subst h'
    have htr' : (scanEntries 10000 es initialScanState "").2 = false := htr
    have hag := scanEntries_agents_of_not_truncated 10000 es initialScanState "" htr'
    show (scanDirectory true es 10000 initialScanState "").1.agentFiles = collectAgents "" es
    rw [scanDirectory_root, hag]
    simp [initialScanState]

/-- C6 witness: a nested `AGENTS.md` is recorded with its root-relative
path. -/
theorem C6_witness :
    (scanEntries 10000
        (.cons (.dir "docs" true (.cons (.file "AGENTS.md") .nil)) .nil)
        initialScanState "").1.agentFiles = ["docs/AGENTS.md"] := by
  have h := (C6_agents_recorded 10000
      (.cons (.dir "docs" true (.cons (.file "AGENTS.md") .nil)) .nil)
      initialScanState "" "p" 0).2.1 (by decide)
  exact h.trans (by decide)

/-- C7: the partitioner is deterministic — two runs of `analyzeProject` on
the same unchanged tree (same ignore rules and cap, possibly different
wall-clock timings) report the same file count, directory count and
truncation flag. -/
theorem C7_deterministic (root : RootFS) (el1 el2 : Nat) (r1 r2 : LearnResult)
    (h1 : analyzeProject root el1 = .ok r1) (h2 : analyzeProject root el2 = .ok r2) :
    r1.totalFiles = r2.totalFiles ∧ r1.totalDirectories = r2.totalDirectories ∧
      r1.truncated = r2.truncated := by
  match root with
  | .missing p => exact Except.noConfusion h1
  | .nonDirectory p => exact Except.noConfusion h1
  | .directory p rb es =>
    cases rb with
    | false => exact Except.noConfusion h1
    | true =>
      rw [analyzeProject_directory_ok] at h1 h2
      injection h1 with e1
      injection h2 with e2
      subst e1
      subst e2
      exact ⟨rfl, rfl, rfl⟩

/-- C7 witness: two runs at different wall-clock timings agree on the
counts and the truncation flag. -/
theorem C7_witness :
    (LearnResult.mk "w" 0 0 ["unknown"] [] [] [] [] 5 false).totalFiles =
      (LearnResult.mk "w" 0 0 ["unknown"] [] [] [] [] 9 false).totalFiles ∧
    (LearnResult.mk "w" 0 0 ["unknown"] [] [] [] [] 5 false).totalDirectories =
      (LearnResult.mk "w" 0 0 ["unknown"] [] [] [] [] 9 false).totalDirectories ∧
    (LearnResult.mk "w" 0 0 ["unknown"] [] [] [] [] 5 false).truncated =
      (LearnResult.mk "w" 0 0 ["unknown"] [] [] [] [] 9 false).truncated :=
  C7_deterministic (.directory "w" true .nil) 5 9 _ _ rfl rfl

/-- C8: the detected `projectTypes` list is never empty — a top-level
indicator file yields its type name, and with no matching indicator the
list is exactly `["unknown"]`; hence every analysis result carries a
non-empty `projectTypes`. -/
theorem C8_project_types (files : List String) (root : RootFS) (el : Nat) :
    detectProjectTypes files ≠ [] ∧
    detectProjectTypes [] = ["unknown"] ∧
    ("package.json" ∈ files → "node" ∈ detectProjectTypes files) ∧
    ("Cargo.toml" ∈ files → "rust" ∈ detectProjectTypes files) ∧
    ("go.mod" ∈ files → "go" ∈ detectProjectTypes files) ∧
    (matchesAnyIndicator files = false → detectProjectTypes files = ["unknown"]) ∧
    (∀ res, analyzeProject root el = .ok res → res.projectTypes ≠ []) := by
  have hne : ∀ gs : List String, detectProjectTypes gs ≠ [] := by
    intro gs
    unfold detectProjectTypes
    dsimp only
    split
    · next hpos => exact List.ne_nil_of_length_pos hpos
    · simp
  have hmem : ∀ (gs : List String) (t : String), t ∈ collectedTypes gs →
      t ∈ detectProjectTypes gs := by
    intro gs t ht
    unfold detectProjectTypes
    dsimp only
    split
    · exact ht
    · next hpos =>
      exfalso
      have hnil : collectedTypes gs = [] := List.eq_nil_of_length_eq_zero (by omega)
      rw [hnil] at ht
      exact (List.not_mem_nil t) ht
  refine ⟨hne files, by decide, ?_, ?_, ?_, ?_, ?_⟩
  · intro h0
    refine hmem files "node" ?_
    have hc : hasNodeIndicator files = true := List.elem_eq_true_of_mem h0
    simp [collectedTypes, hc]
  · intro h0
    refine hmem files "rust" ?_
    have hc : hasRustIndicator files = true := List.elem_eq_true_of_mem h0
    simp [collectedTypes, hc]
  · intro h0
    refine hmem files "go" ?_
    have hc : hasGoIndicator files = true := List.elem_eq_true_of_mem h0
    simp [collectedTypes, hc]
  · intro hm
    simp only [matchesAnyIndicator, Bool.or_eq_false_iff] at hm
    obtain ⟨⟨⟨⟨⟨⟨⟨h1, h2⟩, h3⟩, h4⟩, h5⟩, h6⟩, h7⟩, h8⟩ := hm
    simp [detectProjectTypes, collectedTypes, h1, h2, h3, h4, h5, h6, h7, h8]
  · intro res h
    match root with
    | .missing p => exact Except.noConfusion h
    | .nonDirectory p => exact Except.noConfusion h
    | .directory p rb es =>
      cases rb with
      | false => exact Except.noConfusion h
      | true =>
        rw [analyzeProject_directory_ok] at h
        injection h with h'
        subst h'
        exact hne (topFileNames es)

/-- C8 witness: a `package.json` at top level yields the `node` type. -/
theorem C8_witness :
    "node" ∈ detectProjectTypes ["package.json", "tsconfig.json"] :=
  (C8_project_types ["package.json", "tsconfig.json"] (.missing "m") 0).2.2.1 (by decide)

/-- C9: `loadContextFiles` reports combined success exactly when at least
one per-file result was produced and every produced result succeeded; an
empty path list yields `success = false` with an empty error list, and any
failed file forces combined failure. -/
theorem C9_load_success_iff (queries : List CtxQuery) (clock : Nat → Nat) :
    ((loadContextFiles queries clock).success = true ↔
      ((loadContextFiles queries clock).files ≠ [] ∧
        ∀ f ∈ (loadContextFiles queries clock).files, f.success = true)) ∧
    (queries = [] → (loadContextFiles queries clock).success = false ∧
      (loadContextFiles queries clock).errors = []) ∧
    (∀ f ∈ (loadContextFiles queries clock).files, f.success = false →
      (loadContextFiles queries clock).success = false) := by
  have hsucc : (loadContextFiles queries clock).success =
      ((0 < (loadContextFiles queries clock).files.length : Bool) &&
        (loadContextFiles queries clock).files.all (fun r => r.success)) := rfl
  have hiff : (loadContextFiles queries clock).success = true ↔
      ((loadContextFiles queries clock).files ≠ [] ∧
        ∀ f ∈ (loadContextFiles queries clock).files, f.success = true) := by
    rw [hsucc, Bool.and_eq_true, decide_eq_true_eq, List.all_eq_true]
    constructor
    · intro ⟨hlen, hall⟩
      exact ⟨List.ne_nil_of_length_pos hlen, hall⟩
    · intro ⟨hne, hall⟩
      exact ⟨List.length_pos.mpr hne, hall⟩
  refine ⟨hiff, ?_, ?_⟩
  · intro h
    subst h
    exact ⟨rfl, rfl⟩
  · intro f hf hfs
    cases hs : (loadContextFiles queries clock).success with
    | false => rfl
    | true =>
      have := (hiff.mp hs).2 f hf
      rw [hfs] at this
      exact absurd this (by simp)

/-- C9 witness: the empty path list yields combined failure with no
errors. -/
theorem C9_witness :
    (loadContextFiles [] (fun _ => 0)).success = false ∧
    (loadContextFiles [] (fun _ => 0)).errors = [] :=
  (C9_load_success_iff [] (fun _ => 0)).2.1 rfl

/-- C10: `loadContextFile` fails (no content, an error message) whenever
the file is missing, its extension is not `.md`/`.markdown`/`.txt`, or it
exceeds the 100 KiB limit; and it reports success — carrying the file's
content and byte size and no error — only for an existing,
valid-extension file within the limit.  The model is a total function:
every failure is a returned value, never a thrown exception. -/
theorem C10_loadContextFile (q : CtxQuery) :
    ((q.present = false ∨ validateContextFileFormat q.name ≠ none ∨
        MAX_CONTEXT_FILE_SIZE < q.size) →
      (loadContextFile q).success = false ∧ (loadContextFile q).content = none ∧
        (loadContextFile q).error ≠ none) ∧
    ((loadContextFile q).success = true →
      q.present = true ∧ validateContextFileFormat q.name = none ∧
        q.size ≤ MAX_CONTEXT_FILE_SIZE ∧
        (loadContextFile q).content = some q.content ∧
        (loadContextFile q).sizeBytes = some q.size ∧
        (loadContextFile q).error = none) := by
  cases hp : q.present with
  | false => simp [loadContextFile, hp]
  | true =>
    cases hv : validateContextFileFormat q.name with
    | some err => simp [loadContextFile, hp, hv]
    | none =>
      cases hs : q.statFails with
      | true => simp [loadContextFile, hp, hv, hs]
      | false =>
        by_cases hsize : MAX_CONTEXT_FILE_SIZE < q.size
        · simp [loadContextFile, hp, hv, hs, hsize]
        · cases hr : q.readFails with
          | true => simp [loadContextFile, hp, hv, hs, hsize, hr]
          | false =>
            simp [loadContextFile, hp, hv, hs, hsize, hr]
            omega

/-- C10 witness: a missing file is reported as a failure with an error and
no content. -/
theorem C10_witness :
    (loadContextFile ⟨"missing.md", false, false, 0, false, ""⟩).success = false ∧
    (loadContextFile ⟨"missing.md", false, false, 0, false, ""⟩).content = none ∧
    (loadContextFile ⟨"missing.md", false, false, 0, false, ""⟩).error ≠ none :=
  (C10_loadContextFile ⟨"missing.md", false, false, 0, false, ""⟩).1 (Or.inl rfl)
